import Mathlib

/-!
Shallow embedding of the batch generation job scheduler (src/App.tsx together
with the constants and the provider model tables of src/constants.ts).

The React component state becomes an explicit record `AppState`; the
`processQueue` tick, the promise resolution handlers and the user facing
handlers (`handleAddJobs`, `handleSaveApiKey`, `handleRetryJob`,
`handleCancelJob`) become pure state transformers.  An asynchronous dispatch
that has been started but has not yet resolved is recorded in the `inFlight`
list (the snapshot `jobToStart` captured by the promise callbacks); a
resolution event removes one such snapshot and runs the corresponding
handler.  `Date.now()` inside one synchronous tick is modelled by the single
tick instant `now`.  JavaScript `Set` objects are modelled as duplicate free
lists ordered by insertion.
-/

/-- Job lifecycle states (src/types.ts `JobStatus`). -/
inductive JobStatus
  | Pending
  | Processing
  | Completed
  | Failed
  deriving DecidableEq

/-- Kinds of generation request (src/types.ts `InputType`). -/
inductive InputType
  | TextToVideo
  | ImageToVideo
  | TextToImage
  deriving DecidableEq

/-- Provider identifiers (src/App.tsx `Provider`). -/
inductive Provider
  | gemini
  | sora
  | kling
  | minimax
  | deepai
  | azure
  deriving DecidableEq

/-- Optional image attachment of a job (src/types.ts `Job.image`). -/
structure ImageAttachment where
  base64 : String
  mimeType : String
  name : String
  deriving DecidableEq

/-- One entry of the static model tables (src/constants.ts). -/
structure ModelInfo where
  id : String
  name : String
  provider : Provider
  deriving DecidableEq

/-- src/constants.ts `VIDEO_MODELS`. -/
def VIDEO_MODELS : List ModelInfo :=
  [ { id := "veo-2.0-generate-001", name := "Veo 2 (Gemini)", provider := Provider.gemini },
    { id := "sora-openai", name := "Sora (OpenAI)", provider := Provider.sora },
    { id := "sora-azure", name := "Sora (Azure)", provider := Provider.azure },
    { id := "kling-1", name := "Kling", provider := Provider.kling },
    { id := "minimax-v1", name := "Minimax", provider := Provider.minimax },
    { id := "deepai-video", name := "Video Generator (DeepAI)", provider := Provider.deepai } ]

/-- src/constants.ts `IMAGE_MODELS`. -/
def IMAGE_MODELS : List ModelInfo :=
  [ { id := "imagen-4.0-generate-001", name := "Imagen 4 (Gemini)", provider := Provider.gemini },
    { id := "dalle-3", name := "DALL-E 3 (OpenAI)", provider := Provider.sora } ]

/-- src/constants.ts `MAX_CONCURRENT_JOBS`. -/
def MAX_CONCURRENT_JOBS : Nat := 4

/-- src/constants.ts `RATE_LIMIT_COUNT` (max jobs per window). -/
def RATE_LIMIT_COUNT : Nat := 4

/-- src/constants.ts `RATE_LIMIT_WINDOW_MS` (one minute). -/
def RATE_LIMIT_WINDOW_MS : Nat := 60 * 1000

/-- src/constants.ts `MAX_RETRIES` (max automatic retries). -/
def MAX_RETRIES : Nat := 3

/-- One job record (src/types.ts `Job`).  Optional fields are `Option`s. -/
structure Job where
  id : String
  prompt : String
  inputType : InputType
  model : String
  aspectRatio : String
  outputs : Nat
  image : Option ImageAttachment
  status : JobStatus
  retryCount : Nat
  resultUrl : Option String
  resultUrls : Option (List String)
  error : Option String
  deriving DecidableEq

/-- A job submission template: `Omit Job (id, status, retryCount)` as used by
`handleAddJobs` (src/App.tsx). -/
structure JobTemplate where
  prompt : String
  inputType : InputType
  model : String
  aspectRatio : String
  outputs : Nat
  image : Option ImageAttachment
  deriving DecidableEq

/-- Successful outcome of `processJob` (services/apiService.ts): either
`\x7b resultUrl \x7d` for a video job or `\x7b resultUrls \x7d` for an image job. -/
inductive JobResult
  | video (resultUrl : String)
  | images (resultUrls : List String)
  deriving DecidableEq

/-- A rejected dispatch promise: `isQuota` is whether the thrown error is an
instance of `QuotaExceededError` (services/apiService.ts). -/
structure DispatchError where
  isQuota : Bool
  message : String
  deriving DecidableEq

/-- The scheduler state held by the `App` component (src/App.tsx):
`jobs`, `apiKeys`, `quotaExceededProviders`, `jobStartTimestamps.current`,
`cancelledJobIds.current`, plus the pending dispatch promises (`inFlight`). -/
structure AppState where
  jobs : List Job
  apiKeys : Provider → Option String
  quotaExceededProviders : List Provider
  jobStartTimestamps : List Nat
  cancelledJobIds : List String
  inFlight : List Job

/-- JavaScript truthiness of a stored credential: absent keys and `null` or
empty string values are falsy in `apiKeys[provider]` checks. -/
def keyTruthy : Option String → Bool
  | some s => !(s == "")
  | none => false

/-- JavaScript `Set.add`: append the element if it is not already present. -/
def setAdd {α : Type} [DecidableEq α] (l : List α) (x : α) : List α :=
  if x ∈ l then l else l ++ [x]

/-- Model lookup of `processQueue` and of the catch handler (src/App.tsx):
`modelList = inputType === TextToImage ? IMAGE_MODELS : VIDEO_MODELS` and
`modelList.find(m => m.id === model)`. -/
def findModelInfo (inputType : InputType) (model : String) : Option ModelInfo :=
  let modelList := if inputType = InputType.TextToImage then IMAGE_MODELS else VIDEO_MODELS
  modelList.find? (fun m => m.id == model)

/-- The sliding window prune of `processQueue`:
`jobStartTimestamps.current.filter(ts => now - ts < RATE_LIMIT_WINDOW_MS)`.
JavaScript subtraction of a future timestamp is negative, hence kept; natural
truncated subtraction gives `0 < window`, likewise kept. -/
def prunedTimestamps (s : AppState) (now : Nat) : List Nat :=
  s.jobStartTimestamps.filter (fun timestamp => now - timestamp < RATE_LIMIT_WINDOW_MS)

/-- `jobs.filter(j => j.status === Processing).length` (src/App.tsx). -/
def processingCount (jobs : List Job) : Nat :=
  (jobs.filter (fun j => j.status == JobStatus.Processing)).length

/-- `slotsToProcess = min(availableConcurrencySlots, availableRateLimitSlots)`
computed over the pruned timestamp list (src/App.tsx `processQueue`). -/
def slotsToProcess (s : AppState) (now : Nat) : Int :=
  min ((MAX_CONCURRENT_JOBS : Int) - (processingCount s.jobs : Int))
    ((RATE_LIMIT_COUNT : Int) - ((prunedTimestamps s now).length : Int))

/-- `jobs.filter(j => j.status === Pending)` (src/App.tsx `processQueue`). -/
def pendingJobs (s : AppState) : List Job :=
  s.jobs.filter (fun j => j.status == JobStatus.Pending)

/-- The per job guard of the selection loop: the job's model is found in its
model table and the provider credential is truthy. -/
def eligible (keys : Provider → Option String) (job : Job) : Bool :=
  match findModelInfo job.inputType job.model with
  | some modelInfo => keyTruthy (keys modelInfo.provider)
  | none => false

/-- The body of the `jobsToStart` accumulation loop of `processQueue`
(src/App.tsx): push the job when its model is known, the provider credential
is truthy, and fewer than `slots` jobs have been pushed so far. -/
def selectStep (keys : Provider → Option String) (slots : Int)
    (acc : List Job) (job : Job) : List Job :=
  match findModelInfo job.inputType job.model with
  | some modelInfo =>
    if keyTruthy (keys modelInfo.provider) && ((acc.length : Int) < slots)
    then acc ++ [job] else acc
  | none => acc

/-- The `jobsToStart` accumulation loop of `processQueue` (src/App.tsx):
scan pending jobs in order, accumulating with `selectStep`. -/
def selectJobsToStart (pending : List Job) (keys : Provider → Option String)
    (slots : Int) : List Job :=
  pending.foldl (selectStep keys slots) []

/-- The jobs selected by a tick of `processQueue` at instant `now`. -/
def jobsToStart (s : AppState) (now : Nat) : List Job :=
  selectJobsToStart (pendingJobs s) s.apiKeys (slotsToProcess s now)

/-- One iteration of the `jobsToStart.forEach` body (src/App.tsx): mark the
job Processing, push a dispatch timestamp, and fire the dispatch (recorded as
an in flight snapshot). -/
def startJob (now : Nat) (st : AppState) (jobToStart : Job) : AppState :=
  { st with
    jobs := st.jobs.map (fun j =>
      if j.id == jobToStart.id then { j with status := JobStatus.Processing } else j),
    jobStartTimestamps := st.jobStartTimestamps ++ [now],
    inFlight := st.inFlight ++ [jobToStart] }

/-- The `processQueue` tick (src/App.tsx). -/
def processQueue (s : AppState) (now : Nat) : AppState :=
  if s.quotaExceededProviders.length > 0 then s
  else if slotsToProcess s now ≤ 0 then { s with jobStartTimestamps := prunedTimestamps s now }
  else if (jobsToStart s now).length == 0 then { s with jobStartTimestamps := prunedTimestamps s now }
  else (jobsToStart s now).foldl (startJob now) { s with jobStartTimestamps := prunedTimestamps s now }

/-- The success spread `{ ...j, status: Completed, ...result, error: undefined }`:
the video shape sets `resultUrl` only, the images shape sets `resultUrls`
only; the other result field keeps its previous value. -/
def applyResult (j : Job) (result : JobResult) : Job :=
  match result with
  | JobResult.video u => { j with status := JobStatus.Completed, resultUrl := some u, error := none }
  | JobResult.images us => { j with status := JobStatus.Completed, resultUrls := some us, error := none }

/-- The `.then` handler of a dispatch (src/App.tsx `processQueue`): a
cancelled id consumes its mark and returns, otherwise the job is completed. -/
def resolveSuccess (s : AppState) (jobToStart : Job) (result : JobResult) : AppState :=
  if s.cancelledJobIds.contains jobToStart.id then
    { s with cancelledJobIds := s.cancelledJobIds.filter (fun x => !(x == jobToStart.id)) }
  else
    { s with jobs := s.jobs.map (fun j =>
        if j.id == jobToStart.id then applyResult j result else j) }

/-- The retry message literal of the transient failure branch. -/
def retryMessage : String := "Tự động thử lại..."

/-- `error.message || 'Lỗi không xác định'` of the terminal branch. -/
def fallbackMessage (m : String) : String :=
  if m == "" then "Lỗi không xác định" else m

/-- The per job body of the final `setJobs` of the catch handler: below the
retry budget the job returns to Pending with `retryCount + 1`, otherwise it
fails terminally. -/
def transientFailJob (id : String) (message : String) (j : Job) : Job :=
  if j.id == id then
    if j.retryCount < MAX_RETRIES then
      { j with status := JobStatus.Pending, retryCount := j.retryCount + 1,
               error := some retryMessage }
    else
      { j with status := JobStatus.Failed, error := some (fallbackMessage message) }
  else j

/-- The final `setJobs` of the catch handler, over the whole job list. -/
def transientFailUpdate (jobs : List Job) (id : String) (message : String) : List Job :=
  jobs.map (transientFailJob id message)

/-- The `.catch` handler of a dispatch (src/App.tsx `processQueue`): the
cancellation check runs first; then a `QuotaExceededError` with a resolvable
provider marks the provider exhausted and fails the job; any other error is
a transient failure. -/
def resolveError (s : AppState) (jobToStart : Job) (err : DispatchError) : AppState :=
  if s.cancelledJobIds.contains jobToStart.id then
    { s with cancelledJobIds := s.cancelledJobIds.filter (fun x => !(x == jobToStart.id)) }
  else
    match (findModelInfo jobToStart.inputType jobToStart.model).map ModelInfo.provider with
    | some provider =>
      if err.isQuota then
        { s with
          quotaExceededProviders := setAdd s.quotaExceededProviders provider,
          jobs := s.jobs.map (fun j =>
            if j.id == jobToStart.id then
              { j with status := JobStatus.Failed, error := some err.message } else j) }
      else
        { s with jobs := transientFailUpdate s.jobs jobToStart.id err.message }
    | none =>
      { s with jobs := transientFailUpdate s.jobs jobToStart.id err.message }

/-- `handleAddJobs` (src/App.tsx): each template becomes a Pending job with
`retryCount = 0` and a fresh id; `freshIds` models the `crypto.randomUUID()`
draws, one per template. -/
def handleAddJobs (s : AppState) (newJobs : List JobTemplate) (freshIds : List String) : AppState :=
  let formattedJobs : List Job := (newJobs.zip freshIds).map (fun p =>
    { id := p.2, prompt := p.1.prompt, inputType := p.1.inputType, model := p.1.model,
      aspectRatio := p.1.aspectRatio, outputs := p.1.outputs, image := p.1.image,
      status := JobStatus.Pending, retryCount := 0,
      resultUrl := none, resultUrls := none, error := none })
  { s with jobs := s.jobs ++ formattedJobs }

/-- `handleSaveApiKey` (src/App.tsx): a truthy new key is stored and the
provider is removed from the quota exceeded set. -/
def handleSaveApiKey (s : AppState) (provider : Provider) (newKey : String) : AppState :=
  if !(newKey == "") then
    { s with
      apiKeys := fun p => if p = provider then some newKey else s.apiKeys p,
      quotaExceededProviders := s.quotaExceededProviders.filter (fun q => !(q = provider)) }
  else s

/-- `handleRetryJob` (src/App.tsx). -/
def handleRetryJob (s : AppState) (jobId : String) : AppState :=
  { s with jobs := s.jobs.map (fun j =>
      if j.id == jobId then
        { j with status := JobStatus.Pending, error := none, retryCount := 0 } else j) }

/-- The cancellation message literal of `handleCancelJob`. -/
def cancelMessage : String := "Đã hủy bởi người dùng"

/-- `handleCancelJob` (src/App.tsx): record the id in the cancellation set
and force the job's status to Failed, with no precondition on its status. -/
def handleCancelJob (s : AppState) (jobId : String) : AppState :=
  { s with
    cancelledJobIds := setAdd s.cancelledJobIds jobId,
    jobs := s.jobs.map (fun j =>
      if j.id == jobId then
        { j with status := JobStatus.Failed, error := some cancelMessage } else j) }

/-- The initial component state: no jobs, timestamps, cancellations, quota
flags or pending dispatches; `keys` is whatever credential map was restored
from local storage. -/
def initState (keys : Provider → Option String) : AppState :=
  { jobs := [], apiKeys := keys, quotaExceededProviders := [],
    jobStartTimestamps := [], cancelledJobIds := [], inFlight := [] }

/-- Labels of the externally triggered transitions of the component. -/
inductive Event where
  | enqueue (newJobs : List JobTemplate) (freshIds : List String)
  | tick (now : Nat)
  | saveKey (provider : Provider) (newKey : String)
  | retryJob (jobId : String)
  | cancelJob (jobId : String)
  | resolveOk (jobToStart : Job) (result : JobResult)
  | resolveErr (jobToStart : Job) (err : DispatchError)

/-- Reachability of a state through a (reversed) trace of events from some
initial credential map.  An enqueue draws fresh pairwise distinct ids
(`crypto.randomUUID()`); a resolution fires only for a dispatch that is in
flight and consumes that in flight entry (a promise resolves exactly once). -/
inductive ReachableVia : List Event → AppState → Prop where
  | init (keys : Provider → Option String) : ReachableVia [] (initState keys)
  | tick {tr : List Event} {s : AppState} (now : Nat) (h : ReachableVia tr s) :
      ReachableVia (Event.tick now :: tr) (processQueue s now)
  | enqueue {tr : List Event} {s : AppState} (newJobs : List JobTemplate)
      (freshIds : List String) (hfresh : (s.jobs.map Job.id ++ freshIds).Nodup)
      (h : ReachableVia tr s) :
      ReachableVia (Event.enqueue newJobs freshIds :: tr) (handleAddJobs s newJobs freshIds)
  | saveKey {tr : List Event} {s : AppState} (p : Provider) (k : String)
      (h : ReachableVia tr s) :
      ReachableVia (Event.saveKey p k :: tr) (handleSaveApiKey s p k)
  | retryJob {tr : List Event} {s : AppState} (jobId : String) (h : ReachableVia tr s) :
      ReachableVia (Event.retryJob jobId :: tr) (handleRetryJob s jobId)
  | cancelJob {tr : List Event} {s : AppState} (jobId : String) (h : ReachableVia tr s) :
      ReachableVia (Event.cancelJob jobId :: tr) (handleCancelJob s jobId)
  | resolveOk {tr : List Event} {s : AppState} (j : Job) (r : JobResult)
      (hmem : j ∈ s.inFlight) (h : ReachableVia tr s) :
      ReachableVia (Event.resolveOk j r :: tr)
        (resolveSuccess { s with inFlight := s.inFlight.erase j } j r)
  | resolveErr {tr : List Event} {s : AppState} (j : Job) (e : DispatchError)
      (hmem : j ∈ s.inFlight) (h : ReachableVia tr s) :
      ReachableVia (Event.resolveErr j e :: tr)
        (resolveError { s with inFlight := s.inFlight.erase j } j e)

/-- A component state reachable by some interleaving of events. -/
def Reachable (s : AppState) : Prop := ∃ tr : List Event, ReachableVia tr s

/-- The status effect of the whole `jobsToStart.forEach` loop on one stored
job: a job whose id is among the started ids goes to Processing. -/
def startAll (toStart : List Job) (jb : Job) : Job :=
  if toStart.any (fun t => jb.id == t.id) then { jb with status := JobStatus.Processing } else jb

/-- Inductive invariant of every reachable state: pairwise distinct job ids,
the concurrency bound, the rate window bound, and the retry bound. -/
def StateInv (s : AppState) : Prop :=
  (s.jobs.map Job.id).Nodup
    ∧ processingCount s.jobs ≤ MAX_CONCURRENT_JOBS
    ∧ s.jobStartTimestamps.length ≤ RATE_LIMIT_COUNT
    ∧ ∀ j ∈ s.jobs, j.retryCount ≤ MAX_RETRIES

/-- Ids of the jobs whose dispatch resolved successfully somewhere in a trace. -/
def resolvedOkIds : List Event → List String
  | [] => []
  | Event.resolveOk j _ :: tr => j.id :: resolvedOkIds tr
  | _ :: tr => resolvedOkIds tr

/-- Every job with the given id carries no result reference. -/
def ResultNoneFor (targetId : String) (jobs : List Job) : Prop :=
  ∀ jb ∈ jobs, jb.id = targetId → jb.resultUrl = none ∧ jb.resultUrls = none

/-! ### Concrete fixtures for instances -/

def demoKeys : Provider → Option String := fun p =>
  match p with
  | Provider.gemini => some "key-1"
  | _ => none

def demoTemplate : JobTemplate :=
  { prompt := "a cat", inputType := InputType.TextToVideo, model := "veo-2.0-generate-001",
    aspectRatio := "16:9", outputs := 1, image := none }

def demoJobPending : Job :=
  { id := "job-1", prompt := "a cat", inputType := InputType.TextToVideo,
    model := "veo-2.0-generate-001", aspectRatio := "16:9", outputs := 1, image := none,
    status := JobStatus.Pending, retryCount := 0,
    resultUrl := none, resultUrls := none, error := none }

def demoProcessingJob : Job := { demoJobPending with status := JobStatus.Processing }

def demoJobCompleted : Job :=
  { demoJobPending with status := JobStatus.Completed, resultUrl := some "blob:video-1" }

/-- One enqueued pending job under a gemini credential. -/
def demoState1 : AppState := handleAddJobs (initState demoKeys) [demoTemplate] ["job-1"]

/-- The state after the first tick: the job is Processing and in flight. -/
def demoState2 : AppState := processQueue demoState1 0

/-- A directly built state with one Processing job whose dispatch is in flight. -/
def wStateProc : AppState :=
  { jobs := [demoProcessingJob], apiKeys := demoKeys, quotaExceededProviders := [],
    jobStartTimestamps := [0], cancelledJobIds := [], inFlight := [demoJobPending] }

def wStateCancelled : AppState := { wStateProc with cancelledJobIds := ["job-1"] }

def wStateCompleted : AppState := { wStateProc with jobs := [demoJobCompleted] }

/-- The successful resolution of the demo dispatch. -/
def cexCompleted : AppState :=
  resolveSuccess { demoState2 with inFlight := demoState2.inFlight.erase demoJobPending }
    demoJobPending (JobResult.video "blob:video-1")

/-- Completion followed by cancellation: Failed but still carrying a result. -/
def cexState : AppState := handleCancelJob cexCompleted "job-1"

def cexJob : Job :=
  { demoJobPending with
    status := JobStatus.Failed, resultUrl := some "blob:video-1",
    error := some cancelMessage }

/-- The property claimed of every reachable state: a result reference is
present only on Completed jobs. -/
def ResultOnlyWhenCompleted (s : AppState) : Prop :=
  ∀ j ∈ s.jobs, j.status ≠ JobStatus.Completed → j.resultUrl = none ∧ j.resultUrls = none

def wStateQuota : AppState := { wStateProc with quotaExceededProviders := [Provider.gemini] }

def demoModelInfo : ModelInfo :=
  { id := "veo-2.0-generate-001", name := "Veo 2 (Gemini)", provider := Provider.gemini }

def demoTemplateKling : JobTemplate := { demoTemplate with model := "kling-1" }

def demoJobKling : Job := { demoJobPending with id := "job-k", model := "kling-1" }

def demoStateSkip : AppState :=
  handleAddJobs (initState demoKeys) [demoTemplateKling, demoTemplate] ["job-k", "job-1"]

def klingModelInfo : ModelInfo :=
  { id := "kling-1", name := "Kling", provider := Provider.kling }

def retryAfterCancelState : AppState :=
  handleRetryJob (handleCancelJob demoState1 "job-1") "job-1"

def redispatchedState : AppState := processQueue retryAfterCancelState 0

/-! ### Counting helpers -/

theorem processingCount_eq_countP (jobs : List Job) :
    processingCount jobs = jobs.countP (fun j => j.status == JobStatus.Processing) :=
  (List.countP_eq_length_filter _ _).symm

theorem countP_or_le {α : Type} (l : List α) (p q : α → Bool) :
    l.countP (fun x => p x || q x) ≤ l.countP p + l.countP q := by
  induction l with
  | nil => simp
  | cons a l ih =>
    simp only [List.countP_cons]
    cases hp : p a <;> cases hq : q a <;> simp [hp, hq] <;> omega

theorem countP_single_id_le_one (l : List Job) (x : String)
    (h : (l.map Job.id).Nodup) : l.countP (fun jb => jb.id == x) ≤ 1 := by
  induction l with
  | nil => simp
  | cons j l ih =>
    simp only [List.map_cons, List.nodup_cons, List.mem_map] at h
    simp only [List.countP_cons]
    by_cases hx : j.id = x
    · have hz : l.countP (fun jb => jb.id == x) = 0 := by
        rw [List.countP_eq_zero]
        intro jb hjb
        simp only [beq_iff_eq]
        intro hcon
        exact h.1 ⟨jb, hjb, by rw [hcon, hx]⟩
      simp [hz, hx]
    · have := ih h.2
      simp [hx]
      omega

theorem countP_any_id_le_length (toStart : List Job) (l : List Job)
    (h : (l.map Job.id).Nodup) :
    l.countP (fun jb => toStart.any (fun t => jb.id == t.id)) ≤ toStart.length := by
  induction toStart with
  | nil => simp
  | cons t ts ih =>
    have h1 : l.countP (fun jb => (t :: ts).any (fun u => jb.id == u.id))
        = l.countP (fun jb => (jb.id == t.id) || ts.any (fun u => jb.id == u.id)) := by
      apply List.countP_congr
      intro jb _
      simp [List.any_cons]
    calc l.countP (fun jb => (t :: ts).any (fun u => jb.id == u.id))
        = l.countP (fun jb => (jb.id == t.id) || ts.any (fun u => jb.id == u.id)) := h1
      _ ≤ l.countP (fun jb => jb.id == t.id)
            + l.countP (fun jb => ts.any (fun u => jb.id == u.id)) :=
          countP_or_le l _ _
      _ ≤ 1 + ts.length := Nat.add_le_add (countP_single_id_le_one l t.id h) ih
      _ = (t :: ts).length := by simp [Nat.add_comm]

/-! ### Selection loop characterization -/

theorem selectStep_of_not_eligible (keys : Provider → Option String) (slots : Int)
    (acc : List Job) (job : Job) (h : eligible keys job = false) :
    selectStep keys slots acc job = acc := by
  unfold eligible at h
  cases hf : findModelInfo job.inputType job.model with
  | none => simp [selectStep, hf]
  | some mi =>
    rw [hf] at h
    simp only [] at h
    simp [selectStep, hf, h]

theorem selectStep_of_eligible (keys : Provider → Option String) (slots : Int)
    (acc : List Job) (job : Job) (h : eligible keys job = true) :
    selectStep keys slots acc job
      = if (acc.length : Int) < slots then acc ++ [job] else acc := by
  unfold eligible at h
  cases hf : findModelInfo job.inputType job.model with
  | none => rw [hf] at h; exact absurd h (by simp)
  | some mi =>
    rw [hf] at h
    simp only [] at h
    simp only [selectStep, hf, h, Bool.true_and]
    by_cases hlt : (acc.length : Int) < slots
    · simp [hlt]
    · simp [hlt]

theorem foldl_selectStep_eq (keys : Provider → Option String) (slots : Int) :
    ∀ (pending acc : List Job),
      pending.foldl (selectStep keys slots) acc
        = acc ++ (pending.filter (eligible keys)).take (slots.toNat - acc.length) := by
  intro pending
  induction pending with
  | nil => intro acc; simp
  | cons job l ih =>
    intro acc
    rw [List.foldl_cons]
    cases he : eligible keys job with
    | false =>
      rw [selectStep_of_not_eligible keys slots acc job he, ih acc]
      simp [List.filter_cons, he]
    | true =>
      rw [selectStep_of_eligible keys slots acc job he]
      by_cases hlt : (acc.length : Int) < slots
      · rw [if_pos hlt, ih (acc ++ [job])]
        have hk : slots.toNat - acc.length = (slots.toNat - (acc.length + 1)) + 1 := by omega
        simp [List.filter_cons, he, hk, List.take_succ_cons, List.append_assoc]
      · have hz : slots.toNat - acc.length = 0 := by omega
        rw [if_neg hlt, ih acc, hz]
        simp [List.filter_cons, he, hz]

theorem selectJobsToStart_eq_take (pending : List Job) (keys : Provider → Option String)
    (slots : Int) :
    selectJobsToStart pending keys slots
      = (pending.filter (eligible keys)).take slots.toNat := by
  unfold selectJobsToStart
  rw [foldl_selectStep_eq]
  simp

theorem jobsToStart_eq_take (s : AppState) (now : Nat) :
    jobsToStart s now
      = ((pendingJobs s).filter (eligible s.apiKeys)).take (slotsToProcess s now).toNat := by
  unfold jobsToStart
  exact selectJobsToStart_eq_take _ _ _

theorem jobsToStart_sublist_pending (s : AppState) (now : Nat) :
    List.Sublist (jobsToStart s now) (pendingJobs s) := by
  rw [jobsToStart_eq_take]
  exact (List.take_sublist _ _).trans (List.filter_sublist _)

theorem jobsToStart_length_le (s : AppState) (now : Nat) :
    (jobsToStart s now).length ≤ (slotsToProcess s now).toNat := by
  rw [jobsToStart_eq_take]
  exact List.length_take_le _ _

theorem mem_jobsToStart {s : AppState} {now : Nat} {j : Job}
    (h : j ∈ jobsToStart s now) : j ∈ pendingJobs s ∧ eligible s.apiKeys j = true := by
  rw [jobsToStart_eq_take] at h
  have := (List.take_sublist _ _).subset h
  exact ⟨(List.mem_filter.mp this).1, (List.mem_filter.mp this).2⟩

theorem jobsToStart_of_nonpos {s : AppState} {now : Nat}
    (h : slotsToProcess s now ≤ 0) : jobsToStart s now = [] := by
  rw [jobsToStart_eq_take]
  have : (slotsToProcess s now).toNat = 0 := by omega
  rw [this, List.take_zero]

/-! ### The dispatch loop of a tick -/

theorem startAll_processing (ts : List Job) (jb : Job) :
    startAll ts { jb with status := JobStatus.Processing }
      = { jb with status := JobStatus.Processing } := by
  unfold startAll
  split
  · rfl
  · rfl

theorem foldl_startJob_jobs (now : Nat) :
    ∀ (toStart : List Job) (s0 : AppState),
      (toStart.foldl (startJob now) s0).jobs = s0.jobs.map (startAll toStart) := by
  intro toStart
  induction toStart with
  | nil =>
    intro s0
    symm
    calc s0.jobs.map (startAll [])
        = s0.jobs.map (fun jb => jb) := List.map_congr_left (fun jb _ => by simp [startAll])
      _ = s0.jobs := List.map_id _
  | cons t ts ih =>
    intro s0
    rw [List.foldl_cons, ih (startJob now s0 t)]
    show ((s0.jobs.map _).map _) = _
    rw [List.map_map]
    apply List.map_congr_left
    intro jb _
    show startAll ts (if jb.id == t.id then { jb with status := JobStatus.Processing } else jb)
      = startAll (t :: ts) jb
    cases hbe : jb.id == t.id with
    | true =>
      rw [if_pos rfl, startAll_processing]
      unfold startAll
      rw [List.any_cons, hbe, Bool.true_or]
      simp
    | false =>
      rw [if_neg (by simp)]
      unfold startAll
      rw [List.any_cons, hbe, Bool.false_or]

theorem foldl_startJob_timestamps (now : Nat) :
    ∀ (toStart : List Job) (s0 : AppState),
      (toStart.foldl (startJob now) s0).jobStartTimestamps
        = s0.jobStartTimestamps ++ List.replicate toStart.length now := by
  intro toStart
  induction toStart with
  | nil => intro s0; simp
  | cons t ts ih =>
    intro s0
    rw [List.foldl_cons, ih (startJob now s0 t)]
    show (s0.jobStartTimestamps ++ [now]) ++ List.replicate ts.length now = _
    rw [List.append_assoc, List.singleton_append, ← List.replicate_succ]
    rfl

theorem foldl_startJob_inFlight (now : Nat) :
    ∀ (toStart : List Job) (s0 : AppState),
      (toStart.foldl (startJob now) s0).inFlight = s0.inFlight ++ toStart := by
  intro toStart
  induction toStart with
  | nil => intro s0; simp
  | cons t ts ih =>
    intro s0
    rw [List.foldl_cons, ih (startJob now s0 t)]
    show (s0.inFlight ++ [t]) ++ ts = _
    rw [List.append_assoc, List.singleton_append]

theorem foldl_startJob_apiKeys (now : Nat) :
    ∀ (toStart : List Job) (s0 : AppState),
      (toStart.foldl (startJob now) s0).apiKeys = s0.apiKeys := by
  intro toStart
  induction toStart with
  | nil => intro s0; rfl
  | cons t ts ih => intro s0; rw [List.foldl_cons, ih (startJob now s0 t)]; rfl

theorem foldl_startJob_quota (now : Nat) :
    ∀ (toStart : List Job) (s0 : AppState),
      (toStart.foldl (startJob now) s0).quotaExceededProviders
        = s0.quotaExceededProviders := by
  intro toStart
  induction toStart with
  | nil => intro s0; rfl
  | cons t ts ih => intro s0; rw [List.foldl_cons, ih (startJob now s0 t)]; rfl

theorem foldl_startJob_cancelled (now : Nat) :
    ∀ (toStart : List Job) (s0 : AppState),
      (toStart.foldl (startJob now) s0).cancelledJobIds = s0.cancelledJobIds := by
  intro toStart
  induction toStart with
  | nil => intro s0; rfl
  | cons t ts ih => intro s0; rw [List.foldl_cons, ih (startJob now s0 t)]; rfl

/-! ### Tick characterization -/

theorem map_startAll_nil (jobs : List Job) : jobs.map (startAll []) = jobs :=
  (List.map_congr_left (fun jb _ => by simp [startAll])).trans (List.map_id jobs)

theorem processQueue_of_quota {s : AppState} (now : Nat)
    (h : s.quotaExceededProviders ≠ []) : processQueue s now = s := by
  unfold processQueue
  rw [if_pos (List.length_pos.mpr h)]

theorem processQueue_jobs {s : AppState} (now : Nat)
    (h : s.quotaExceededProviders = []) :
    (processQueue s now).jobs = s.jobs.map (startAll (jobsToStart s now)) := by
  unfold processQueue
  rw [if_neg (by simp [h])]
  by_cases h1 : slotsToProcess s now ≤ 0
  · rw [if_pos h1, jobsToStart_of_nonpos h1]
    show s.jobs = _
    rw [map_startAll_nil]
  · rw [if_neg h1]
    by_cases h2 : (jobsToStart s now).length = 0
    · rw [if_pos (by simp [h2]), List.eq_nil_of_length_eq_zero h2]
      show s.jobs = _
      rw [map_startAll_nil]
    · rw [if_neg (by simp [h2]), foldl_startJob_jobs]

theorem processQueue_timestamps {s : AppState} (now : Nat)
    (h : s.quotaExceededProviders = []) :
    (processQueue s now).jobStartTimestamps
      = prunedTimestamps s now ++ List.replicate (jobsToStart s now).length now := by
  unfold processQueue
  rw [if_neg (by simp [h])]
  by_cases h1 : slotsToProcess s now ≤ 0
  · rw [if_pos h1, jobsToStart_of_nonpos h1]
    simp
  · rw [if_neg h1]
    by_cases h2 : (jobsToStart s now).length = 0
    · rw [if_pos (by simp [h2]), h2]
      simp
    · rw [if_neg (by simp [h2]), foldl_startJob_timestamps]

theorem processQueue_inFlight {s : AppState} (now : Nat)
    (h : s.quotaExceededProviders = []) :
    (processQueue s now).inFlight = s.inFlight ++ jobsToStart s now := by
  unfold processQueue
  rw [if_neg (by simp [h])]
  by_cases h1 : slotsToProcess s now ≤ 0
  · rw [if_pos h1, jobsToStart_of_nonpos h1]
    simp
  · rw [if_neg h1]
    by_cases h2 : (jobsToStart s now).length = 0
    · rw [if_pos (by simp [h2]), List.eq_nil_of_length_eq_zero h2]
      simp
    · rw [if_neg (by simp [h2]), foldl_startJob_inFlight]

theorem processQueue_cancelled (s : AppState) (now : Nat) :
    (processQueue s now).cancelledJobIds = s.cancelledJobIds := by
  unfold processQueue
  by_cases h0 : s.quotaExceededProviders.length > 0
  · rw [if_pos h0]
  · rw [if_neg h0]
    by_cases h1 : slotsToProcess s now ≤ 0
    · rw [if_pos h1]
    · rw [if_neg h1]
      by_cases h2 : (jobsToStart s now).length = 0
      · rw [if_pos (by simp [h2])]
      · rw [if_neg (by simp [h2]), foldl_startJob_cancelled]

theorem processQueue_quotaSet (s : AppState) (now : Nat) :
    (processQueue s now).quotaExceededProviders = s.quotaExceededProviders := by
  unfold processQueue
  by_cases h0 : s.quotaExceededProviders.length > 0
  · rw [if_pos h0]
  · rw [if_neg h0]
    by_cases h1 : slotsToProcess s now ≤ 0
    · rw [if_pos h1]
    · rw [if_neg h1]
      by_cases h2 : (jobsToStart s now).length = 0
      · rw [if_pos (by simp [h2])]
      · rw [if_neg (by simp [h2]), foldl_startJob_quota]

theorem processQueue_apiKeys (s : AppState) (now : Nat) :
    (processQueue s now).apiKeys = s.apiKeys := by
  unfold processQueue
  by_cases h0 : s.quotaExceededProviders.length > 0
  · rw [if_pos h0]
  · rw [if_neg h0]
    by_cases h1 : slotsToProcess s now ≤ 0
    · rw [if_pos h1]
    · rw [if_neg h1]
      by_cases h2 : (jobsToStart s now).length = 0
      · rw [if_pos (by simp [h2])]
      · rw [if_neg (by simp [h2]), foldl_startJob_apiKeys]

/-! ### Field preservation helpers -/

theorem startAll_id (toStart : List Job) (jb : Job) : (startAll toStart jb).id = jb.id := by
  unfold startAll
  split
  · rfl
  · rfl

theorem startAll_retryCount (toStart : List Job) (jb : Job) :
    (startAll toStart jb).retryCount = jb.retryCount := by
  unfold startAll
  split
  · rfl
  · rfl

theorem startAll_results (toStart : List Job) (jb : Job) :
    (startAll toStart jb).resultUrl = jb.resultUrl
      ∧ (startAll toStart jb).resultUrls = jb.resultUrls := by
  unfold startAll
  split
  · exact ⟨rfl, rfl⟩
  · exact ⟨rfl, rfl⟩

theorem map_ids_eq {f : Job → Job} (hf : ∀ jb, (f jb).id = jb.id) (jobs : List Job) :
    (jobs.map f).map Job.id = jobs.map Job.id := by
  rw [List.map_map]
  exact List.map_congr_left (fun jb _ => hf jb)

theorem processingCount_map_le {f : Job → Job}
    (hf : ∀ jb, ((f jb).status == JobStatus.Processing) = true
      → (jb.status == JobStatus.Processing) = true) (jobs : List Job) :
    processingCount (jobs.map f) ≤ processingCount jobs := by
  rw [processingCount_eq_countP, processingCount_eq_countP, List.countP_map]
  apply List.countP_mono_left
  intro jb _ h
  exact hf jb h

theorem processingCount_map_startAll_le (toStart : List Job) (jobs : List Job)
    (h : (jobs.map Job.id).Nodup) :
    processingCount (jobs.map (startAll toStart))
      ≤ processingCount jobs + toStart.length := by
  rw [processingCount_eq_countP, processingCount_eq_countP, List.countP_map]
  have h1 : jobs.countP ((fun j => j.status == JobStatus.Processing) ∘ startAll toStart)
      = jobs.countP (fun jb =>
          (toStart.any fun t => jb.id == t.id) || (jb.status == JobStatus.Processing)) := by
    apply List.countP_congr
    intro jb _
    simp only [Function.comp]
    unfold startAll
    by_cases h2 : (toStart.any fun t => jb.id == t.id) = true
    · rw [if_pos h2, h2]
      simp
    · rw [if_neg h2]
      rw [Bool.not_eq_true] at h2
      rw [h2, Bool.false_or]
  rw [h1]
  calc jobs.countP (fun jb =>
          (toStart.any fun t => jb.id == t.id) || (jb.status == JobStatus.Processing))
      ≤ jobs.countP (fun jb => toStart.any fun t => jb.id == t.id)
          + jobs.countP (fun jb => jb.status == JobStatus.Processing) := countP_or_le _ _ _
    _ ≤ toStart.length + jobs.countP (fun jb => jb.status == JobStatus.Processing) :=
        Nat.add_le_add_right (countP_any_id_le_length toStart jobs h) _
    _ = jobs.countP (fun jb => jb.status == JobStatus.Processing) + toStart.length :=
        Nat.add_comm _ _

theorem processingCount_append (l1 l2 : List Job) :
    processingCount (l1 ++ l2) = processingCount l1 + processingCount l2 := by
  unfold processingCount
  rw [List.filter_append, List.length_append]

theorem zip_snd_sublist {α β : Type} :
    ∀ (l1 : List α) (l2 : List β), List.Sublist ((l1.zip l2).map Prod.snd) l2 := by
  intro l1
  induction l1 with
  | nil => intro l2; simp
  | cons a l ih =>
    intro l2
    cases l2 with
    | nil => simp
    | cons b l2 =>
      rw [List.zip_cons_cons, List.map_cons]
      exact List.Sublist.cons₂ b (ih l2)

/-! ### Resolution handler helpers -/

theorem applyResult_id (j : Job) (r : JobResult) : (applyResult j r).id = j.id := by
  cases r
  · rfl
  · rfl

theorem applyResult_retryCount (j : Job) (r : JobResult) :
    (applyResult j r).retryCount = j.retryCount := by
  cases r
  · rfl
  · rfl

theorem applyResult_status (j : Job) (r : JobResult) :
    (applyResult j r).status = JobStatus.Completed := by
  cases r
  · rfl
  · rfl

theorem transientFailJob_id (id : String) (message : String) (j : Job) :
    (transientFailJob id message j).id = j.id := by
  unfold transientFailJob
  split
  · split
    · rfl
    · rfl
  · rfl

theorem transientFailJob_retryCount (id : String) (message : String) (j : Job)
    (h : j.retryCount ≤ MAX_RETRIES) :
    (transientFailJob id message j).retryCount ≤ MAX_RETRIES := by
  unfold transientFailJob
  split
  · split
    · next hlt => show j.retryCount + 1 ≤ MAX_RETRIES; omega
    · exact h
  · exact h

theorem transientFailJob_not_processing (id : String) (message : String) (j : Job)
    (h : ((transientFailJob id message j).status == JobStatus.Processing) = true) :
    (j.status == JobStatus.Processing) = true := by
  unfold transientFailJob at h
  split at h
  · split at h
    · exact absurd h (by simp)
    · exact absurd h (by simp)
  · exact h

theorem resolveSuccess_of_cancelled {s : AppState} (j : Job) (r : JobResult)
    (h : s.cancelledJobIds.contains j.id = true) :
    resolveSuccess s j r
      = { s with cancelledJobIds := s.cancelledJobIds.filter (fun x => !(x == j.id)) } := by
  unfold resolveSuccess
  rw [if_pos h]

theorem resolveSuccess_of_not_cancelled {s : AppState} (j : Job) (r : JobResult)
    (h : s.cancelledJobIds.contains j.id = false) :
    resolveSuccess s j r
      = { s with jobs := s.jobs.map (fun jb =>
          if jb.id == j.id then applyResult jb r else jb) } := by
  unfold resolveSuccess
  rw [if_neg (by rw [h]; simp)]

theorem resolveError_of_cancelled {s : AppState} (j : Job) (e : DispatchError)
    (h : s.cancelledJobIds.contains j.id = true) :
    resolveError s j e
      = { s with cancelledJobIds := s.cancelledJobIds.filter (fun x => !(x == j.id)) } := by
  unfold resolveError
  rw [if_pos h]

theorem resolveError_quota_branch {s : AppState} (j : Job) (e : DispatchError)
    {mi : ModelInfo} (h : s.cancelledJobIds.contains j.id = false)
    (hmi : findModelInfo j.inputType j.model = some mi) (hq : e.isQuota = true) :
    resolveError s j e
      = { s with
          quotaExceededProviders := setAdd s.quotaExceededProviders mi.provider,
          jobs := s.jobs.map (fun jb =>
            if jb.id == j.id then
              { jb with status := JobStatus.Failed, error := some e.message } else jb) } := by
  unfold resolveError
  rw [if_neg (by rw [h]; simp), hmi]
  simp only [Option.map_some']
  rw [if_pos hq]

theorem resolveError_transient_some {s : AppState} (j : Job) (e : DispatchError)
    {mi : ModelInfo} (h : s.cancelledJobIds.contains j.id = false)
    (hmi : findModelInfo j.inputType j.model = some mi) (hq : e.isQuota = false) :
    resolveError s j e = { s with jobs := transientFailUpdate s.jobs j.id e.message } := by
  unfold resolveError
  rw [if_neg (by rw [h]; simp), hmi]
  simp only [Option.map_some']
  rw [if_neg (by simp [hq])]

theorem resolveError_transient_none {s : AppState} (j : Job) (e : DispatchError)
    (h : s.cancelledJobIds.contains j.id = false)
    (hmi : findModelInfo j.inputType j.model = none) :
    resolveError s j e = { s with jobs := transientFailUpdate s.jobs j.id e.message } := by
  unfold resolveError
  rw [if_neg (by rw [h]; simp), hmi]
  simp only [Option.map_none']

/-! ### The inductive state invariant -/

theorem stateInv_init (keys : Provider → Option String) : StateInv (initState keys) := by
  refine ⟨?_, ?_, ?_, ?_⟩
  · simp [initState]
  · simp [initState, processingCount]
  · simp [initState]
  · simp [initState]

theorem stateInv_tick {s : AppState} (now : Nat) (inv : StateInv s) :
    StateInv (processQueue s now) := by
  by_cases hq : s.quotaExceededProviders = []
  · obtain ⟨hids, hpc, hts, hrc⟩ := inv
    refine ⟨?_, ?_, ?_, ?_⟩
    · rw [processQueue_jobs now hq, map_ids_eq (startAll_id _)]
      exact hids
    · rw [processQueue_jobs now hq]
      have hb := processingCount_map_startAll_le (jobsToStart s now) s.jobs hids
      have hlen := jobsToStart_length_le s now
      have hmin : slotsToProcess s now
          ≤ (MAX_CONCURRENT_JOBS : Int) - (processingCount s.jobs : Int) :=
        min_le_left _ _
      omega
    · rw [processQueue_timestamps now hq, List.length_append, List.length_replicate]
      have hlen := jobsToStart_length_le s now
      have hmin : slotsToProcess s now
          ≤ (RATE_LIMIT_COUNT : Int) - ((prunedTimestamps s now).length : Int) :=
        min_le_right _ _
      have hpl : (prunedTimestamps s now).length ≤ s.jobStartTimestamps.length :=
        List.length_filter_le _ _
      omega
    · rw [processQueue_jobs now hq]
      intro j' hj'
      obtain ⟨j, hj, rfl⟩ := List.mem_map.mp hj'
      rw [startAll_retryCount]
      exact hrc j hj
  · rw [processQueue_of_quota now hq]
    exact inv

theorem stateInv_enqueue {s : AppState} (newJobs : List JobTemplate)
    (freshIds : List String) (hfresh : (s.jobs.map Job.id ++ freshIds).Nodup)
    (inv : StateInv s) : StateInv (handleAddJobs s newJobs freshIds) := by
  obtain ⟨hids, hpc, hts, hrc⟩ := inv
  refine ⟨?_, ?_, ?_, ?_⟩
  · show ((s.jobs ++ _).map Job.id).Nodup
    rw [List.map_append, List.map_map]
    have hsub : List.Sublist ((newJobs.zip freshIds).map Prod.snd) freshIds :=
      zip_snd_sublist _ _
    exact (List.Sublist.append_left hsub _).nodup hfresh
  · show processingCount (s.jobs ++ _) ≤ MAX_CONCURRENT_JOBS
    rw [processingCount_append]
    have hz : processingCount ((newJobs.zip freshIds).map (fun p =>
        ({ id := p.2, prompt := p.1.prompt, inputType := p.1.inputType, model := p.1.model,
           aspectRatio := p.1.aspectRatio, outputs := p.1.outputs, image := p.1.image,
           status := JobStatus.Pending, retryCount := 0,
           resultUrl := none, resultUrls := none, error := none } : Job))) = 0 := by
      unfold processingCount
      rw [List.length_eq_zero]
      rw [List.filter_eq_nil_iff]
      intro jb hjb
      obtain ⟨p, _, rfl⟩ := List.mem_map.mp hjb
      simp
    rw [hz]
    omega
  · exact hts
  · intro j hj
    rcases List.mem_append.mp hj with hl | hr
    · exact hrc j hl
    · obtain ⟨p, _, rfl⟩ := List.mem_map.mp hr
      simp [MAX_RETRIES]

theorem stateInv_saveKey {s : AppState} (p : Provider) (k : String) (inv : StateInv s) :
    StateInv (handleSaveApiKey s p k) := by
  unfold handleSaveApiKey
  split
  · exact inv
  · exact inv

theorem stateInv_retry {s : AppState} (jobId : String) (inv : StateInv s) :
    StateInv (handleRetryJob s jobId) := by
  obtain ⟨hids, hpc, hts, hrc⟩ := inv
  refine ⟨?_, ?_, ?_, ?_⟩
  · show ((s.jobs.map _).map Job.id).Nodup
    rw [map_ids_eq (fun jb => by split <;> rfl)]
    exact hids
  · refine le_trans (processingCount_map_le ?_ s.jobs) hpc
    intro jb h
    by_cases hid : (jb.id == jobId) = true
    · rw [if_pos hid] at h
      exact absurd h (by simp)
    · rwa [if_neg hid] at h
  · exact hts
  · intro j' hj'
    obtain ⟨j, hj, rfl⟩ := List.mem_map.mp hj'
    by_cases hid : (j.id == jobId) = true
    · rw [if_pos hid]
      simp [MAX_RETRIES]
    · rw [if_neg hid]
      exact hrc j hj

theorem stateInv_cancel {s : AppState} (jobId : String) (inv : StateInv s) :
    StateInv (handleCancelJob s jobId) := by
  obtain ⟨hids, hpc, hts, hrc⟩ := inv
  refine ⟨?_, ?_, ?_, ?_⟩
  · show ((s.jobs.map _).map Job.id).Nodup
    rw [map_ids_eq (fun jb => by split <;> rfl)]
    exact hids
  · refine le_trans (processingCount_map_le ?_ s.jobs) hpc
    intro jb h
    by_cases hid : (jb.id == jobId) = true
    · rw [if_pos hid] at h
      exact absurd h (by simp)
    · rwa [if_neg hid] at h
  · exact hts
  · intro j' hj'
    obtain ⟨j, hj, rfl⟩ := List.mem_map.mp hj'
    by_cases hid : (j.id == jobId) = true
    · rw [if_pos hid]
      exact hrc j hj
    · rw [if_neg hid]
      exact hrc j hj

theorem stateInv_resolveSuccess {s : AppState} (j : Job) (r : JobResult) (inv : StateInv s) :
    StateInv (resolveSuccess s j r) := by
  obtain ⟨hids, hpc, hts, hrc⟩ := inv
  by_cases hc : s.cancelledJobIds.contains j.id = true
  · rw [resolveSuccess_of_cancelled j r hc]
    exact ⟨hids, hpc, hts, hrc⟩
  · rw [resolveSuccess_of_not_cancelled j r (by simpa using hc)]
    refine ⟨?_, ?_, ?_, ?_⟩
    · show ((s.jobs.map _).map Job.id).Nodup
      rw [map_ids_eq (fun jb => by split <;> [exact applyResult_id jb r; rfl])]
      exact hids
    · refine le_trans (processingCount_map_le ?_ s.jobs) hpc
      intro jb h
      by_cases hid : (jb.id == j.id) = true
      · rw [if_pos hid] at h
        rw [applyResult_status] at h
        exact absurd h (by simp)
      · rwa [if_neg hid] at h
    · exact hts
    · intro j' hj'
      obtain ⟨jb, hjb, rfl⟩ := List.mem_map.mp hj'
      by_cases hid : (jb.id == j.id) = true
      · rw [if_pos hid, applyResult_retryCount]
        exact hrc jb hjb
      · rw [if_neg hid]
        exact hrc jb hjb

theorem stateInv_resolveError {s : AppState} (j : Job) (e : DispatchError) (inv : StateInv s) :
    StateInv (resolveError s j e) := by
  obtain ⟨hids, hpc, hts, hrc⟩ := inv
  have htrans : StateInv { s with
      jobs := transientFailUpdate s.jobs j.id e.message } := by
    refine ⟨?_, ?_, ?_, ?_⟩
    · show ((s.jobs.map _).map Job.id).Nodup
      rw [map_ids_eq (transientFailJob_id j.id e.message)]
      exact hids
    · refine le_trans (processingCount_map_le ?_ s.jobs) hpc
      intro jb h
      exact transientFailJob_not_processing j.id e.message jb h
    · exact hts
    · intro j' hj'
      obtain ⟨jb, hjb, rfl⟩ := List.mem_map.mp hj'
      exact transientFailJob_retryCount j.id e.message jb (hrc jb hjb)
  by_cases hc : s.cancelledJobIds.contains j.id = true
  · rw [resolveError_of_cancelled j e hc]
    exact ⟨hids, hpc, hts, hrc⟩
  · have hc' : s.cancelledJobIds.contains j.id = false := by simpa using hc
    cases hmi : findModelInfo j.inputType j.model with
    | none =>
      rw [resolveError_transient_none j e hc' hmi]
      exact htrans
    | some mi =>
      cases hqe : e.isQuota with
      | true =>
        rw [resolveError_quota_branch j e hc' hmi hqe]
        refine ⟨?_, ?_, ?_, ?_⟩
        · show ((s.jobs.map _).map Job.id).Nodup
          rw [map_ids_eq (fun jb => by split <;> rfl)]
          exact hids
        · refine le_trans (processingCount_map_le ?_ s.jobs) hpc
          intro jb h
          by_cases hid : (jb.id == j.id) = true
          · rw [if_pos hid] at h
            exact absurd h (by simp)
          · rwa [if_neg hid] at h
        · exact hts
        · intro j' hj'
          obtain ⟨jb, hjb, rfl⟩ := List.mem_map.mp hj'
          by_cases hid : (jb.id == j.id) = true
          · rw [if_pos hid]
            exact hrc jb hjb
          · rw [if_neg hid]
            exact hrc jb hjb
      | false =>
        rw [resolveError_transient_some j e hc' hmi hqe]
        exact htrans

/-- Every reachable state satisfies the inductive invariant. -/
theorem reachableVia_stateInv {tr : List Event} {s : AppState}
    (h : ReachableVia tr s) : StateInv s := by
  induction h with
  | init keys => exact stateInv_init keys
  | tick now _ ih => exact stateInv_tick now ih
  | enqueue newJobs freshIds hfresh _ ih => exact stateInv_enqueue newJobs freshIds hfresh ih
  | saveKey p k _ ih => exact stateInv_saveKey p k ih
  | retryJob jobId _ ih => exact stateInv_retry jobId ih
  | cancelJob jobId _ ih => exact stateInv_cancel jobId ih
  | resolveOk j r _ _ ih => exact stateInv_resolveSuccess j r ih
  | resolveErr j e _ _ ih => exact stateInv_resolveError j e ih

/-! ### Result fields only ever come from a successful resolution -/

theorem transientFailJob_results (id : String) (message : String) (j : Job) :
    (transientFailJob id message j).resultUrl = j.resultUrl
      ∧ (transientFailJob id message j).resultUrls = j.resultUrls := by
  unfold transientFailJob
  split
  · split
    · exact ⟨rfl, rfl⟩
    · exact ⟨rfl, rfl⟩
  · exact ⟨rfl, rfl⟩

theorem resultNone_map {t : String} {f : Job → Job}
    (hfid : ∀ jb, (f jb).id = jb.id)
    (hfres : ∀ jb, (f jb).resultUrl = jb.resultUrl ∧ (f jb).resultUrls = jb.resultUrls)
    {jobs : List Job} (h : ResultNoneFor t jobs) : ResultNoneFor t (jobs.map f) := by
  intro jb' hjb' hid
  obtain ⟨jb, hjb, rfl⟩ := List.mem_map.mp hjb'
  rw [hfid] at hid
  have := h jb hjb hid
  rw [(hfres jb).1, (hfres jb).2]
  exact this

theorem resultNone_tick {t : String} {s : AppState} (now : Nat)
    (h : ResultNoneFor t s.jobs) : ResultNoneFor t (processQueue s now).jobs := by
  by_cases hq : s.quotaExceededProviders = []
  · rw [processQueue_jobs now hq]
    exact resultNone_map (startAll_id _) (startAll_results _) h
  · rw [processQueue_of_quota now hq]
    exact h

theorem resultNone_enqueue {t : String} {s : AppState} (newJobs : List JobTemplate)
    (freshIds : List String) (h : ResultNoneFor t s.jobs) :
    ResultNoneFor t (handleAddJobs s newJobs freshIds).jobs := by
  intro jb hjb hid
  rcases List.mem_append.mp hjb with hl | hr
  · exact h jb hl hid
  · obtain ⟨p, _, rfl⟩ := List.mem_map.mp hr
    exact ⟨rfl, rfl⟩

theorem resultNone_saveKey {t : String} {s : AppState} (p : Provider) (k : String)
    (h : ResultNoneFor t s.jobs) : ResultNoneFor t (handleSaveApiKey s p k).jobs := by
  unfold handleSaveApiKey
  split
  · exact h
  · exact h

theorem resultNone_retry {t : String} {s : AppState} (jobId : String)
    (h : ResultNoneFor t s.jobs) : ResultNoneFor t (handleRetryJob s jobId).jobs := by
  refine resultNone_map (fun jb => by split <;> rfl) (fun jb => ?_) h
  split
  · exact ⟨rfl, rfl⟩
  · exact ⟨rfl, rfl⟩

theorem resultNone_cancel {t : String} {s : AppState} (jobId : String)
    (h : ResultNoneFor t s.jobs) : ResultNoneFor t (handleCancelJob s jobId).jobs := by
  refine resultNone_map (fun jb => by split <;> rfl) (fun jb => ?_) h
  split
  · exact ⟨rfl, rfl⟩
  · exact ⟨rfl, rfl⟩

theorem resultNone_resolveSuccess {t : String} {s : AppState} (j : Job) (r : JobResult)
    (hne : t ≠ j.id) (h : ResultNoneFor t s.jobs) :
    ResultNoneFor t (resolveSuccess s j r).jobs := by
  by_cases hc : s.cancelledJobIds.contains j.id = true
  · rw [resolveSuccess_of_cancelled j r hc]
    exact h
  · rw [resolveSuccess_of_not_cancelled j r (by simpa using hc)]
    intro jb' hjb' hid
    obtain ⟨jb, hjb, rfl⟩ := List.mem_map.mp hjb'
    by_cases hidm : (jb.id == j.id) = true
    · rw [if_pos hidm, applyResult_id] at hid
      rw [beq_iff_eq] at hidm
      exact absurd (hid ▸ hidm) hne
    · rw [if_neg hidm] at hid ⊢
      exact h jb hjb hid

theorem resultNone_resolveError {t : String} {s : AppState} (j : Job) (e : DispatchError)
    (h : ResultNoneFor t s.jobs) : ResultNoneFor t (resolveError s j e).jobs := by
  by_cases hc : s.cancelledJobIds.contains j.id = true
  · rw [resolveError_of_cancelled j e hc]
    exact h
  · have hc' : s.cancelledJobIds.contains j.id = false := by simpa using hc
    cases hmi : findModelInfo j.inputType j.model with
    | none =>
      rw [resolveError_transient_none j e hc' hmi]
      exact resultNone_map (transientFailJob_id _ _) (transientFailJob_results _ _) h
    | some mi =>
      cases hqe : e.isQuota with
      | true =>
        rw [resolveError_quota_branch j e hc' hmi hqe]
        refine resultNone_map (fun jb => by split <;> rfl) (fun jb => ?_) h
        split
        · exact ⟨rfl, rfl⟩
        · exact ⟨rfl, rfl⟩
      | false =>
        rw [resolveError_transient_some j e hc' hmi hqe]
        exact resultNone_map (transientFailJob_id _ _) (transientFailJob_results _ _) h

/-- If no successful resolution for an id occurs in the trace, every stored
job with that id has empty result fields. -/
theorem reachableVia_resultNone {tr : List Event} {s : AppState}
    (h : ReachableVia tr s) (targetId : String) :
    targetId ∉ resolvedOkIds tr → ResultNoneFor targetId s.jobs := by
  induction h with
  | init keys =>
    intro _ jb hjb
    exact absurd hjb (by simp [initState])
  | tick now _ ih => exact fun hno => resultNone_tick now (ih hno)
  | enqueue newJobs freshIds _ _ ih => exact fun hno => resultNone_enqueue _ _ (ih hno)
  | saveKey p k _ ih => exact fun hno => resultNone_saveKey p k (ih hno)
  | retryJob jobId _ ih => exact fun hno => resultNone_retry jobId (ih hno)
  | cancelJob jobId _ ih => exact fun hno => resultNone_cancel jobId (ih hno)
  | @resolveOk tr2 s2 j r hmem hvia ih =>
    intro hno
    have h1 : resolvedOkIds (Event.resolveOk j r :: tr2) = j.id :: resolvedOkIds tr2 := rfl
    rw [h1, List.mem_cons] at hno
    push_neg at hno
    exact resultNone_resolveSuccess j r hno.1 (ih hno.2)
  | resolveErr j e _ _ ih => exact fun hno => resultNone_resolveError j e (ih hno)

/-! ### Set and projection facts -/

theorem mem_setAdd_self {α : Type} [DecidableEq α] (l : List α) (x : α) : x ∈ setAdd l x := by
  unfold setAdd
  split
  · assumption
  · simp

theorem mem_setAdd_of_mem {α : Type} [DecidableEq α] {l : List α} {y : α} (x : α)
    (h : y ∈ l) : y ∈ setAdd l x := by
  unfold setAdd
  split
  · exact h
  · exact List.mem_append_left _ h

theorem resolveSuccess_quota (s : AppState) (j : Job) (r : JobResult) :
    (resolveSuccess s j r).quotaExceededProviders = s.quotaExceededProviders := by
  unfold resolveSuccess
  split
  · rfl
  · rfl

theorem resolveError_quota_mono {s : AppState} (j : Job) (e : DispatchError) {p : Provider}
    (h : p ∈ s.quotaExceededProviders) : p ∈ (resolveError s j e).quotaExceededProviders := by
  unfold resolveError
  split
  · exact h
  · split
    · split
      · exact mem_setAdd_of_mem _ h
      · exact h
    · exact h

theorem handleSaveApiKey_jobs (s : AppState) (p : Provider) (k : String) :
    (handleSaveApiKey s p k).jobs = s.jobs := by
  unfold handleSaveApiKey
  split
  · rfl
  · rfl

theorem startAll_of_mem {toStart : List Job} {j : Job} (h : j ∈ toStart) :
    startAll toStart j = { j with status := JobStatus.Processing } := by
  unfold startAll
  rw [if_pos]
  rw [List.any_eq_true]
  exact ⟨j, h, by simp⟩

theorem startAll_of_not_matching {toStart : List Job} {j : Job}
    (h : (toStart.any fun t => j.id == t.id) = false) : startAll toStart j = j := by
  unfold startAll
  rw [if_neg (by rw [h]; simp)]

/-! ### Claim theorems -/

/-- C1: at every reachable state of the scheduler, after any interleaving of
ticks, enqueues, cancels, retries and dispatch resolutions, the number of
jobs with status Processing is at most MAX_CONCURRENT_JOBS = 4, and the
number of recorded dispatch timestamps lying within the trailing
RATE_LIMIT_WINDOW_MS window of any instant is at most RATE_LIMIT_COUNT = 4. -/
theorem claim_concurrency_and_rate_invariant (s : AppState) (h : Reachable s) :
    processingCount s.jobs ≤ MAX_CONCURRENT_JOBS
      ∧ ∀ t : Nat,
          (s.jobStartTimestamps.filter
            (fun timestamp => t - timestamp < RATE_LIMIT_WINDOW_MS)).length
            ≤ RATE_LIMIT_COUNT := by
  obtain ⟨tr, hvia⟩ := h
  obtain ⟨_, hpc, hts, _⟩ := reachableVia_stateInv hvia
  exact ⟨hpc, fun t => le_trans (List.length_filter_le _ _) hts⟩

/-- Witness for C1: the invariant instantiated at the empty initial state
and the window ending at instant 0. -/
theorem claim_concurrency_and_rate_invariant_witness :
    processingCount (initState (fun _ => none)).jobs ≤ MAX_CONCURRENT_JOBS
      ∧ ((initState (fun _ => none)).jobStartTimestamps.filter
          (fun timestamp => 0 - timestamp < RATE_LIMIT_WINDOW_MS)).length
          ≤ RATE_LIMIT_COUNT := by
  have h := claim_concurrency_and_rate_invariant (initState (fun _ => none))
    ⟨[], ReachableVia.init _⟩
  exact ⟨h.1, h.2 0⟩

/-- C2: a Processing job whose dispatch resolves with a non quota error while
not cancelled returns to Pending with retryCount incremented and the
informational retry message when retryCount < MAX_RETRIES, and otherwise
becomes Failed carrying the error message; moreover a reachable job's
retryCount never exceeds MAX_RETRIES = 3, so the fourth consecutive
transient failure yields Failed, not Pending. -/
theorem claim_transient_failure_retry :
    (∀ (s : AppState) (jobToStart : Job) (err : DispatchError),
      err.isQuota = false →
      s.cancelledJobIds.contains jobToStart.id = false →
      ∀ j ∈ s.jobs, j.id = jobToStart.id → j.status = JobStatus.Processing →
        (j.retryCount < MAX_RETRIES →
            { j with status := JobStatus.Pending, retryCount := j.retryCount + 1,
                     error := some retryMessage } ∈ (resolveError s jobToStart err).jobs)
          ∧ (MAX_RETRIES ≤ j.retryCount →
            { j with status := JobStatus.Failed,
                     error := some (fallbackMessage err.message) }
              ∈ (resolveError s jobToStart err).jobs))
    ∧ (∀ s : AppState, Reachable s → ∀ j ∈ s.jobs, j.retryCount ≤ MAX_RETRIES) := by
  constructor
  · intro s jobToStart err hq hc j hj hid _
    have hjobs : (resolveError s jobToStart err).jobs
        = transientFailUpdate s.jobs jobToStart.id err.message := by
      cases hmi : findModelInfo jobToStart.inputType jobToStart.model with
      | none => rw [resolveError_transient_none jobToStart err hc hmi]
      | some mi => rw [resolveError_transient_some jobToStart err hc hmi hq]
    rw [hjobs]
    have hide : (j.id == jobToStart.id) = true := by rw [beq_iff_eq]; exact hid
    constructor
    · intro hlt
      have hf : transientFailJob jobToStart.id err.message j
          = { j with status := JobStatus.Pending, retryCount := j.retryCount + 1,
                     error := some retryMessage } := by
        unfold transientFailJob
        rw [if_pos hide, if_pos hlt]
      exact hf ▸ List.mem_map_of_mem _ hj
    · intro hge
      have hf : transientFailJob jobToStart.id err.message j
          = { j with status := JobStatus.Failed,
                     error := some (fallbackMessage err.message) } := by
        unfold transientFailJob
        rw [if_pos hide, if_neg (by omega)]
      exact hf ▸ List.mem_map_of_mem _ hj
  · intro s hs j hj
    obtain ⟨tr, hvia⟩ := hs
    exact (reachableVia_stateInv hvia).2.2.2 j hj

/-- Witness for C2: a transient failure of the Processing demo job at
retryCount 0 puts it back to Pending with retryCount 1 and the retry
message, and the demo job's retryCount is within the bound. -/
theorem claim_transient_failure_retry_witness :
    ({ demoProcessingJob with
       status := JobStatus.Pending, retryCount := demoProcessingJob.retryCount + 1,
       error := some retryMessage }
        ∈ (resolveError wStateProc demoJobPending
            { isQuota := false, message := "boom" }).jobs)
    ∧ demoJobPending.retryCount ≤ MAX_RETRIES := by
  constructor
  · exact (claim_transient_failure_retry.1 wStateProc demoJobPending
      { isQuota := false, message := "boom" } rfl (by decide) demoProcessingJob
      (by decide) (by decide) (by decide)).1 (by decide)
  · exact claim_transient_failure_retry.2 demoState1
      ⟨[Event.enqueue [demoTemplate] ["job-1"]],
        ReachableVia.enqueue _ _ (by decide) (ReachableVia.init demoKeys)⟩
      demoJobPending (by decide)

/-- C3: while QuotaExceededProviders is non empty a tick is a no op (global
halt, not per provider); a QuotaExceeded resolution of a non cancelled job
adds the job's resolved provider to the set and fails the job with the quota
message; and no event other than the external credential save ever removes a
provider from the set, so the halt persists until cleared externally. -/
theorem claim_quota_halt_and_persistence :
    (∀ (s : AppState) (now : Nat), s.quotaExceededProviders ≠ [] → processQueue s now = s)
    ∧ (∀ (s : AppState) (j : Job) (e : DispatchError) (mi : ModelInfo),
        s.cancelledJobIds.contains j.id = false → e.isQuota = true →
        findModelInfo j.inputType j.model = some mi →
          mi.provider ∈ (resolveError s j e).quotaExceededProviders
          ∧ ∀ jb ∈ s.jobs, jb.id = j.id →
              { jb with status := JobStatus.Failed, error := some e.message }
                ∈ (resolveError s j e).jobs)
    ∧ (∀ (s : AppState) (p : Provider), p ∈ s.quotaExceededProviders →
        (∀ now : Nat, p ∈ (processQueue s now).quotaExceededProviders)
        ∧ (∀ (newJobs : List JobTemplate) (freshIds : List String),
            p ∈ (handleAddJobs s newJobs freshIds).quotaExceededProviders)
        ∧ (∀ jobId : String, p ∈ (handleRetryJob s jobId).quotaExceededProviders)
        ∧ (∀ jobId : String, p ∈ (handleCancelJob s jobId).quotaExceededProviders)
        ∧ (∀ (j : Job) (r : JobResult), p ∈ (resolveSuccess s j r).quotaExceededProviders)
        ∧ (∀ (j : Job) (e : DispatchError),
            p ∈ (resolveError s j e).quotaExceededProviders)) := by
  refine ⟨?_, ?_, ?_⟩
  · intro s now h
    exact processQueue_of_quota now h
  · intro s j e mi hc hq hmi
    rw [resolveError_quota_branch j e hc hmi hq]
    constructor
    · exact mem_setAdd_self _ _
    · intro jb hjb hid
      have hide : (jb.id == j.id) = true := by rw [beq_iff_eq]; exact hid
      have hf : (if jb.id == j.id then
          { jb with status := JobStatus.Failed, error := some e.message } else jb)
          = { jb with status := JobStatus.Failed, error := some e.message } := if_pos hide
      exact hf ▸ List.mem_map_of_mem _ hjb
  · intro s p hp
    refine ⟨?_, ?_, ?_, ?_, ?_, ?_⟩
    · intro now
      rw [processQueue_quotaSet]
      exact hp
    · intro newJobs freshIds
      exact hp
    · intro jobId
      exact hp
    · intro jobId
      exact hp
    · intro j r
      rw [resolveSuccess_quota]
      exact hp
    · intro j e
      exact resolveError_quota_mono j e hp

/-- Witness for C3: the halted demo state is untouched by a tick, the quota
failure of the demo dispatch flags gemini, and the existing flag survives a
tick. -/
theorem claim_quota_halt_and_persistence_witness :
    processQueue wStateQuota 5 = wStateQuota
    ∧ Provider.gemini ∈ (resolveError wStateProc demoJobPending
        { isQuota := true, message := "quota" }).quotaExceededProviders
    ∧ Provider.gemini ∈ (processQueue wStateQuota 7).quotaExceededProviders := by
  refine ⟨?_, ?_, ?_⟩
  · exact claim_quota_halt_and_persistence.1 wStateQuota 5 (by decide)
  · exact (claim_quota_halt_and_persistence.2.1 wStateProc demoJobPending
      { isQuota := true, message := "quota" } demoModelInfo (by decide) rfl (by decide)).1
  · exact (claim_quota_halt_and_persistence.2.2 wStateQuota Provider.gemini (by decide)).1 7

/-- C4: once a job's cancellation has been recorded, a later resolution of
its dispatch, successful or failed, leaves the job list untouched (so the
job keeps its Failed status and cancellation message) and consumes the
cancellation mark. -/
theorem claim_cancelled_resolution_discarded (s : AppState) (j : Job)
    (hc : s.cancelledJobIds.contains j.id = true) :
    (∀ r : JobResult,
        (resolveSuccess s j r).jobs = s.jobs
        ∧ (resolveSuccess s j r).cancelledJobIds
            = s.cancelledJobIds.filter (fun x => !(x == j.id))
        ∧ j.id ∉ (resolveSuccess s j r).cancelledJobIds)
    ∧ (∀ e : DispatchError,
        (resolveError s j e).jobs = s.jobs
        ∧ (resolveError s j e).cancelledJobIds
            = s.cancelledJobIds.filter (fun x => !(x == j.id))
        ∧ j.id ∉ (resolveError s j e).cancelledJobIds) := by
  constructor
  · intro r
    rw [resolveSuccess_of_cancelled j r hc]
    refine ⟨rfl, rfl, ?_⟩
    intro hmem
    have := (List.mem_filter.mp hmem).2
    simp at this
  · intro e
    rw [resolveError_of_cancelled j e hc]
    refine ⟨rfl, rfl, ?_⟩
    intro hmem
    have := (List.mem_filter.mp hmem).2
    simp at this

/-- Witness for C4: both resolutions of the cancelled demo dispatch leave the
job list unchanged and drop the mark. -/
theorem claim_cancelled_resolution_discarded_witness :
    (resolveSuccess wStateCancelled demoJobPending (JobResult.video "u")).jobs
        = wStateCancelled.jobs
    ∧ "job-1" ∉ (resolveError wStateCancelled demoJobPending
        { isQuota := false, message := "late" }).cancelledJobIds := by
  have h := claim_cancelled_resolution_discarded wStateCancelled demoJobPending (by decide)
  exact ⟨(h.1 (JobResult.video "u")).1, (h.2 { isQuota := false, message := "late" }).2.2⟩

/-- C5: a tick with no quota halt computes slots as the minimum of the free
concurrency slots and the free rate window slots; a non positive minimum
starts nothing; otherwise at most `slots` Pending jobs are selected in
submission order (a sublist of the Pending list), each selected job is
marked Processing with one dispatch timestamp recorded, all in the same
tick. -/
theorem claim_tick_slots_fifo (s : AppState) (now : Nat)
    (hq : s.quotaExceededProviders = []) :
    slotsToProcess s now
        = min ((MAX_CONCURRENT_JOBS : Int) - (processingCount s.jobs : Int))
            ((RATE_LIMIT_COUNT : Int) - ((prunedTimestamps s now).length : Int))
    ∧ (slotsToProcess s now ≤ 0 →
        (processQueue s now).jobs = s.jobs ∧ (processQueue s now).inFlight = s.inFlight)
    ∧ List.Sublist (jobsToStart s now) (pendingJobs s)
    ∧ ((jobsToStart s now).length : Int) ≤ max (slotsToProcess s now) 0
    ∧ (∀ j ∈ jobsToStart s now,
        { j with status := JobStatus.Processing } ∈ (processQueue s now).jobs)
    ∧ (processQueue s now).jobStartTimestamps
        = prunedTimestamps s now ++ List.replicate (jobsToStart s now).length now := by
  refine ⟨rfl, ?_, jobsToStart_sublist_pending s now, ?_, ?_, processQueue_timestamps now hq⟩
  · intro hle
    constructor
    · rw [processQueue_jobs now hq, jobsToStart_of_nonpos hle, map_startAll_nil]
    · rw [processQueue_inFlight now hq, jobsToStart_of_nonpos hle, List.append_nil]
  · have := jobsToStart_length_le s now
    omega
  · intro j hjmem
    rw [processQueue_jobs now hq]
    have hjs : j ∈ s.jobs := (List.mem_filter.mp (mem_jobsToStart hjmem).1).1
    exact List.mem_map.mpr ⟨j, hjs, startAll_of_mem hjmem⟩

/-- Witness for C5: the first tick of the single job demo state selects the
job in FIFO order, marks it Processing and records its timestamp. -/
theorem claim_tick_slots_fifo_witness :
    List.Sublist (jobsToStart demoState1 0) (pendingJobs demoState1)
    ∧ ({ demoJobPending with status := JobStatus.Processing }
        ∈ (processQueue demoState1 0).jobs)
    ∧ (processQueue demoState1 0).jobStartTimestamps
        = prunedTimestamps demoState1 0
            ++ List.replicate (jobsToStart demoState1 0).length 0 := by
  have h := claim_tick_slots_fifo demoState1 0 rfl
  exact ⟨h.2.2.1, h.2.2.2.2.1 demoJobPending (by decide), h.2.2.2.2.2⟩

/-- C6: a Pending job whose resolved provider has no configured credential is
never selected by a tick, stays in the job list unchanged (still Pending),
and does not consume a slot: the selection is exactly the first
`slots` credentialed Pending jobs, so a later credentialed job can take its
place. -/
theorem claim_missing_credential_skipped (s : AppState) (now : Nat) (job : Job)
    (mi : ModelInfo) (hnodup : (s.jobs.map Job.id).Nodup) (hjob : job ∈ s.jobs)
    (_hpend : job.status = JobStatus.Pending)
    (hmi : findModelInfo job.inputType job.model = some mi)
    (hkey : s.apiKeys mi.provider = none) :
    job ∉ jobsToStart s now
    ∧ job ∈ (processQueue s now).jobs
    ∧ jobsToStart s now
        = ((pendingJobs s).filter (eligible s.apiKeys)).take (slotsToProcess s now).toNat := by
  have helig : eligible s.apiKeys job = false := by
    unfold eligible
    rw [hmi]
    show keyTruthy (s.apiKeys mi.provider) = false
    rw [hkey]
    rfl
  have hnot : job ∉ jobsToStart s now := by
    intro hmem
    have := (mem_jobsToStart hmem).2
    rw [helig] at this
    exact absurd this (by simp)
  refine ⟨hnot, ?_, jobsToStart_eq_take s now⟩
  by_cases hquota : s.quotaExceededProviders = []
  · rw [processQueue_jobs now hquota]
    have hany : ((jobsToStart s now).any fun t => job.id == t.id) = false := by
      rw [List.any_eq_false]
      intro t ht hbeq
      rw [beq_iff_eq] at hbeq
      have htjobs : t ∈ s.jobs := (List.mem_filter.mp (mem_jobsToStart ht).1).1
      have heq : job = t := List.inj_on_of_nodup_map hnodup hjob htjobs hbeq
      exact hnot (heq ▸ ht)
    exact List.mem_map.mpr ⟨job, hjob, startAll_of_not_matching hany⟩
  · rw [processQueue_of_quota now hquota]
    exact hjob

/-- Witness for C6: the kling job without a credential is skipped by the
first tick of the two job demo state and stays Pending in the job list. -/
theorem claim_missing_credential_skipped_witness :
    demoJobKling ∉ jobsToStart demoStateSkip 0
    ∧ demoJobKling ∈ (processQueue demoStateSkip 0).jobs := by
  have h := claim_missing_credential_skipped demoStateSkip 0 demoJobKling klingModelInfo
    (by decide) (by decide) (by decide) (by decide) (by decide)
  exact ⟨h.1, h.2.1⟩

/-- C7 counterexample: a reachable state in which a Failed job still carries
a result reference: the demo job completes (getting a result) and is then
cancelled; `handleCancelJob` forces status Failed but does not clear
`resultUrl`, refuting the claim that a result is present only on Completed
jobs. -/
theorem claim_result_only_when_completed_cex :
    Reachable cexState ∧ ¬ ResultOnlyWhenCompleted cexState := by
  constructor
  · refine ⟨[Event.cancelJob "job-1",
      Event.resolveOk demoJobPending (JobResult.video "blob:video-1"),
      Event.tick 0, Event.enqueue [demoTemplate] ["job-1"]], ?_⟩
    exact ReachableVia.cancelJob "job-1"
      (ReachableVia.resolveOk demoJobPending (JobResult.video "blob:video-1") (by decide)
        (ReachableVia.tick 0
          (ReachableVia.enqueue [demoTemplate] ["job-1"] (by decide)
            (ReachableVia.init demoKeys))))
  · intro hclaim
    have h := hclaim cexJob (by decide) (by decide)
    exact absurd h.1 (by decide)

/-- C7 amended: result references originate only from a successful dispatch
resolution, and later transitions (including cancel and manual retry) never
clear them; hence in every reachable state a job whose id never resolved
successfully in the trace has no result.  (The claim as stated fails: a
Completed job that is cancelled or retried keeps its result while no longer
Completed.) -/
theorem claim_result_only_after_success {tr : List Event} {s : AppState}
    (h : ReachableVia tr s) (targetId : String)
    (hno : targetId ∉ resolvedOkIds tr) :
    ∀ jb ∈ s.jobs, jb.id = targetId → jb.resultUrl = none ∧ jb.resultUrls = none :=
  reachableVia_resultNone h targetId hno

/-- Witness for the amended C7: the freshly enqueued demo job, whose id has
no successful resolution in the one event trace, has no result fields. -/
theorem claim_result_only_after_success_witness :
    demoJobPending.resultUrl = none ∧ demoJobPending.resultUrls = none :=
  claim_result_only_after_success
    (ReachableVia.enqueue [demoTemplate] ["job-1"] (by decide) (ReachableVia.init demoKeys))
    "job-1" (by decide) demoJobPending (by decide) (by decide)

/-- C8: cancel has no precondition on the job's status: for any stored job
with the given id, whatever its status, cancel forces status Failed with the
fixed cancellation message and records the id in the cancellation set. -/
theorem claim_cancel_unconditional (s : AppState) (jobId : String) :
    jobId ∈ (handleCancelJob s jobId).cancelledJobIds
    ∧ ∀ j ∈ s.jobs, j.id = jobId →
        { j with status := JobStatus.Failed, error := some cancelMessage }
          ∈ (handleCancelJob s jobId).jobs := by
  constructor
  · exact mem_setAdd_self _ _
  · intro j hj hid
    have hide : (j.id == jobId) = true := by rw [beq_iff_eq]; exact hid
    have hf : (if j.id == jobId then
        { j with status := JobStatus.Failed, error := some cancelMessage } else j)
        = { j with status := JobStatus.Failed, error := some cancelMessage } := if_pos hide
    exact hf ▸ List.mem_map_of_mem _ hj

/-- Witness for C8: cancelling a Completed job moves it to Failed with the
cancellation message and records the mark. -/
theorem claim_cancel_unconditional_witness :
    "job-1" ∈ (handleCancelJob wStateCompleted "job-1").cancelledJobIds
    ∧ { demoJobCompleted with status := JobStatus.Failed, error := some cancelMessage }
        ∈ (handleCancelJob wStateCompleted "job-1").jobs := by
  have h := claim_cancel_unconditional wStateCompleted "job-1"
  exact ⟨h.1, h.2 demoJobCompleted (by decide) (by decide)⟩

/-- C9: cancelling a Pending job records a mark that nothing consumes (the
inflight set is untouched); manual retry returns the job to Pending without
touching the mark; a tick never consumes the mark; and the first resolution
of a later dispatch of that job is discarded, the mark being consumed, with
no job list mutation — so the job stays Processing. -/
theorem claim_cancel_pending_retry_dispatch :
    (∀ (s : AppState) (jobId : String),
        jobId ∈ (handleCancelJob s jobId).cancelledJobIds
        ∧ (handleCancelJob s jobId).inFlight = s.inFlight)
    ∧ (∀ (s : AppState) (jobId : String),
        (handleRetryJob s jobId).cancelledJobIds = s.cancelledJobIds
        ∧ ∀ j ∈ s.jobs, j.id = jobId →
            { j with status := JobStatus.Pending, error := none, retryCount := 0 }
              ∈ (handleRetryJob s jobId).jobs)
    ∧ (∀ (s : AppState) (now : Nat),
        (processQueue s now).cancelledJobIds = s.cancelledJobIds)
    ∧ (∀ (s : AppState) (j : Job) (r : JobResult),
        s.cancelledJobIds.contains j.id = true →
          (resolveSuccess s j r).jobs = s.jobs
          ∧ j.id ∉ (resolveSuccess s j r).cancelledJobIds) := by
  refine ⟨?_, ?_, ?_, ?_⟩
  · intro s jobId
    exact ⟨mem_setAdd_self _ _, rfl⟩
  · intro s jobId
    refine ⟨rfl, ?_⟩
    intro j hj hid
    have hide : (j.id == jobId) = true := by rw [beq_iff_eq]; exact hid
    have hf : (if j.id == jobId then
        { j with status := JobStatus.Pending, error := none, retryCount := 0 } else j)
        = { j with status := JobStatus.Pending, error := none, retryCount := 0 } :=
      if_pos hide
    exact hf ▸ List.mem_map_of_mem _ hj
  · exact processQueue_cancelled
  · intro s j r hc
    rw [resolveSuccess_of_cancelled j r hc]
    refine ⟨rfl, ?_⟩
    intro hmem
    have := (List.mem_filter.mp hmem).2
    simp at this

/-- Witness for C9 along the concrete cancel, retry, tick, resolve chain of
the demo job. -/
theorem claim_cancel_pending_retry_dispatch_witness :
    "job-1" ∈ (handleCancelJob demoState1 "job-1").cancelledJobIds
    ∧ (processQueue retryAfterCancelState 0).cancelledJobIds
        = retryAfterCancelState.cancelledJobIds
    ∧ (resolveSuccess redispatchedState demoJobPending (JobResult.video "late")).jobs
        = redispatchedState.jobs
    ∧ "job-1" ∉ (resolveSuccess redispatchedState demoJobPending
        (JobResult.video "late")).cancelledJobIds := by
  have h := claim_cancel_pending_retry_dispatch
  have h4 := h.2.2.2 redispatchedState demoJobPending (JobResult.video "late") (by decide)
  exact ⟨(h.1 demoState1 "job-1").1, h.2.2.1 retryAfterCancelState 0, h4.1, h4.2⟩

/-- C10: for a dispatch whose job id is already in the cancellation set, even
a QuotaExceeded error resolution changes neither the quota exceeded provider
set nor the job list — the cancellation check precedes the quota branch, so
a cancelled job's quota failure never triggers the global halt. -/
theorem claim_cancelled_quota_error_no_halt (s : AppState) (j : Job) (e : DispatchError)
    (hc : s.cancelledJobIds.contains j.id = true) :
    (resolveError s j e).quotaExceededProviders = s.quotaExceededProviders
    ∧ (resolveError s j e).jobs = s.jobs
    ∧ (s.quotaExceededProviders = [] →
        (resolveError s j e).quotaExceededProviders = []) := by
  rw [resolveError_of_cancelled j e hc]
  exact ⟨rfl, rfl, fun h => h⟩

/-- Witness for C10: the cancelled demo dispatch failing with a quota error
leaves the (empty) quota exceeded set empty. -/
theorem claim_cancelled_quota_error_no_halt_witness :
    (resolveError wStateCancelled demoJobPending
        { isQuota := true, message := "quota" }).quotaExceededProviders
      = wStateCancelled.quotaExceededProviders
    ∧ (resolveError wStateCancelled demoJobPending
        { isQuota := true, message := "quota" }).quotaExceededProviders = [] := by
  have h := claim_cancelled_quota_error_no_halt wStateCancelled demoJobPending
    { isQuota := true, message := "quota" } (by decide)
  exact ⟨h.1, h.2.2 rfl⟩
